import Mathlib

/-!
Verification development for the Audience Engagement & Broadcast Engine
(`src/bot.py`): a shallow embedding of its database layer, its handlers and
its broadcast loop, with theorems settling the specification's claims.

Modelling conventions:
* SQLite tables are lists of row structures; the `UNIQUE` column `user_id`
  is enforced by the SQL statements (`ON CONFLICT`, `INSERT OR IGNORE`),
  which the embedded functions mirror, not by the list type.
* Timestamps are integer instants (seconds since the epoch).  The source
  stores ISO-8601 UTC strings, which compare chronologically as text, so
  integer comparison is a faithful rendering of the SQL `>=` on them.
* Fallible effects (storage errors, the membership query, message edits,
  per-recipient sends) are passed in as explicit outcomes, and `await`ed
  Python calls become sequential composition: an error at an awaited call
  aborts the handler, exactly as an exception would propagate.
* Python strings used for text processing are `List Char`; fixed UI texts
  stay `String` literals.
-/

set_option maxHeartbeats 1000000

namespace IgroBot

/-- A Telegram user as the handlers receive it: `id`, optional `username`,
`first_name`, optional `last_name`. -/
structure TgUser where
  id : Int
  username : Option String
  first_name : String
  last_name : Option String
  deriving Repr, DecidableEq

/-- A row of the `users` table (the surrogate `id` autoincrement column is
irrelevant to every claim and omitted). -/
structure UserRow where
  user_id : Int
  username : Option String
  first_name : String
  last_name : Option String
  joined_at : Int
  last_seen : Int
  deriving Repr, DecidableEq

/-- A row of the `giveaway` table. -/
structure GiveawayRow where
  user_id : Int
  username : Option String
  joined_at : Int
  deriving Repr, DecidableEq

/-- The SQLite database: the `users` and `giveaway` tables. -/
structure DB where
  users : List UserRow
  giveaway : List GiveawayRow
  deriving Repr, DecidableEq

/-- Python truthiness of an optional string (`if user.username:`):
`None` and the empty string are falsy. -/
def usernameTruthy : Option String → Bool
  | some u => !(u == "")
  | none => false

/-- `upsert_user`: `INSERT INTO users ... ON CONFLICT(user_id) DO UPDATE SET
username, first_name, last_name, last_seen = excluded...`.  On conflict the
update list does not contain `joined_at`; on insert both `joined_at` and
`last_seen` are set to `now`. -/
def upsert_user (user : TgUser) (now : Int) (db : DB) : DB :=
  if db.users.any (fun r => r.user_id == user.id) then
    { db with users := db.users.map (fun r =>
        if r.user_id == user.id then
          { r with username := user.username, first_name := user.first_name,
                   last_name := user.last_name, last_seen := now }
        else r) }
  else
    let newRow : UserRow :=
      { user_id := user.id, username := user.username,
        first_name := user.first_name, last_name := user.last_name,
        joined_at := now, last_seen := now }
    { db with users := db.users ++ [newRow] }

/-- `count_total_users`: `SELECT COUNT(*) FROM users`. -/
def count_total_users (db : DB) : Nat :=
  db.users.length

/-- Seconds in a day, for the day-boundary computations. -/
def SECONDS_PER_DAY : Int := 86400

/-- `date.today()`: the calendar date on the host clock, i.e. the floor-day
of the current instant shifted by the host's local UTC offset. -/
def localToday (utcNow tzOffset : Int) : Int :=
  (utcNow + tzOffset).fdiv SECONDS_PER_DAY

/-- `count_active_today`: builds `start_of_day` as midnight UTC of
`date.today()` — the host's *local* calendar date — then counts
`SELECT COUNT(*) FROM users WHERE last_seen >= start_of_day`. -/
def count_active_today (utcNow tzOffset : Int) (db : DB) : Nat :=
  let start_of_day := localToday utcNow tzOffset * SECONDS_PER_DAY
  (db.users.filter (fun r => start_of_day ≤ r.last_seen)).length

/-- The specification's wording of the same query: count users whose
`last_seen` is at or after the start of the current *UTC* day, independent
of the host's local timezone. -/
def count_active_today_utcSpec (utcNow : Int) (db : DB) : Nat :=
  let start_of_day := utcNow.fdiv SECONDS_PER_DAY * SECONDS_PER_DAY
  (db.users.filter (fun r => start_of_day ≤ r.last_seen)).length

/-- `add_to_giveaway`: `INSERT OR IGNORE INTO giveaway (user_id, username,
joined_at)` (no-op when a row with this `user_id` exists), then, when the
user has a truthy username, append it to `participants.txt` unless one of
the file's lines already equals it.  Returns the updated table and file. -/
def add_to_giveaway (user : TgUser) (now : Int) (db : DB) (file : List String) :
    DB × List String :=
  let newRow : GiveawayRow :=
    { user_id := user.id, username := user.username, joined_at := now }
  let db' :=
    if db.giveaway.any (fun r => r.user_id == user.id) then db
    else { db with giveaway := db.giveaway ++ [newRow] }
  let file' :=
    match user.username with
    | some u => if u == "" then file else (if u ∈ file then file else file ++ [u])
    | none => file
  (db', file')

/-- `is_admin`: membership in the `ADMIN_IDS` allow-list. -/
def is_admin (adminIds : List Int) (user_id : Int) : Bool :=
  adminIds.contains user_id

/-- A storage-layer failure raised by a synchronous DB helper (and hence by
the `await loop.run_in_executor(...)` that runs it). -/
inductive StorageErr
  | err
  deriving Repr, DecidableEq

/-- The `/start` menu text. -/
def START_TEXT : String :=
  "🤖 IGRO Store Bot\n\n🛍️ Satlyk akkauntlary görmek üçin ýa-da konkursa ýazylmak üçin aşakdaky knopgalary ulanyň 👇"

/-- The `start` handler: when an effective user exists it runs
`await loop.run_in_executor(None, upsert_user, user)` — sequential, so a
storage error raised by `upsert_user` propagates out of the handler before
`reply_text` runs — then replies with the menu text.  `upsertFails` is the
outcome of the offloaded `upsert_user` call. -/
def start (user : Option TgUser) (now : Int) (upsertFails : Bool) (db : DB) :
    Except StorageErr (DB × String) :=
  match user with
  | some u =>
    if upsertFails then Except.error StorageErr.err
    else Except.ok (upsert_user u now db, START_TEXT)
  | none => Except.ok (db, START_TEXT)

/-- The catch-all `echo_touch` handler: `await`s the same offloaded
`upsert_user` and sends no reply. -/
def echo_touch (user : Option TgUser) (now : Int) (upsertFails : Bool) (db : DB) :
    Except StorageErr DB :=
  match user with
  | some u =>
    if upsertFails then Except.error StorageErr.err
    else Except.ok (upsert_user u now db)
  | none => Except.ok db

/-- Outcome of `await context.bot.get_chat_member(...)`: either the member
status string, or a raised exception. -/
inductive OracleResult
  | ok (status : String)
  | raised
  deriving Repr, DecidableEq

/-- What the user sees after `button_handler`: either nothing (unknown
callback data) or one edited message text. -/
inductive GateReply
  | silent
  | msg (text : String)
  deriving Repr, DecidableEq

/-- The success acknowledgment of the gate. -/
def SUCCESS_MSG : String := "🎉 Gutlaýas! Konkursa üstünlikli ýazyldyňyz."

/-- The denial message, an f-string over `CHANNEL_USERNAME`; the `else`
branch and the `except` branch build the identical text. -/
def denial_msg (channel : String) : String :=
  "⚠️ Konkursa ýazylmak üçin hökman kanala goşulmaly: " ++ channel

/-- `member.status in ("member", "administrator", "creator")`. -/
def statusGrants (status : String) : Bool :=
  status == "member" || status == "administrator" || status == "creator"

/-- Bot-side persistent state touched by the gate: the database and the
`participants.txt` lines. -/
structure BotState where
  db : DB
  file : List String
  deriving Repr, DecidableEq

/-- `button_handler`: on `join_giveaway` data, the whole body sits in one
`try`: query the oracle; on an in-group status run `add_to_giveaway` through
the executor (`await`ed, so its exception propagates into the same `try`)
and edit in the success text; any other status edits in the denial text.
Any exception — oracle error, ledger-write failure (`addFails`), or failure
of the success edit itself (`successEditFails`) — falls to the single
`except`, which edits in the same denial text. -/
def button_handler (data channel : String) (user : TgUser) (now : Int)
    (oracle : OracleResult) (addFails successEditFails : Bool)
    (st : BotState) : BotState × GateReply :=
  if data == "join_giveaway" then
    match oracle with
    | OracleResult.raised => (st, GateReply.msg (denial_msg channel))
    | OracleResult.ok status =>
      if statusGrants status then
        if addFails then (st, GateReply.msg (denial_msg channel))
        else
          let res := add_to_giveaway user now st.db st.file
          let st' : BotState := { db := res.1, file := res.2 }
          if successEditFails then (st', GateReply.msg (denial_msg channel))
          else (st', GateReply.msg SUCCESS_MSG)
      else (st, GateReply.msg (denial_msg channel))
  else (st, GateReply.silent)

/-- The admin's view after `/participants`: the empty-table message, the
message shown when no participant has a username, or the formatted list. -/
inductive ParticipantsReply
  | noParticipants
  | noUsernames
  | listing (lines : List String)
  deriving Repr, DecidableEq

/-- The list comprehension
`lines = [f"@" + p for p in participants if p]`: keep only truthy
usernames, each prefixed with `@`. -/
def participants_lines (participants : List (Option String)) : List String :=
  participants.filterMap (fun p =>
    match p with
    | some u => if u == "" then none else some ("@" ++ u)
    | none => none)

/-- `participants_cmd` (the part after the admin guard): the query
`SELECT username FROM giveaway` yields only usernames; an empty result
replies "no participants"; otherwise truthy usernames are formatted and,
when none survive, the no-username notice is shown. -/
def participants_cmd (rows : List GiveawayRow) : ParticipantsReply :=
  let participants := rows.map (fun r => r.username)
  if participants.isEmpty then ParticipantsReply.noParticipants
  else
    let lines := participants_lines participants
    if lines.isEmpty then ParticipantsReply.noUsernames
    else ParticipantsReply.listing lines

/-- Python whitespace, as recognised by `str.strip()` and `str.split()`:
space, tab, newline, vertical tab, form feed, carriage return. -/
def isPyWs (c : Char) : Bool :=
  c == ' ' || c == '\t' || c == '\n' || c == '\x0b' || c == '\x0c' || c == '\r'

/-- `" ".join(args)`: the argument strings joined by single spaces, as a
character list. -/
def joinWithSpaces : List String → List Char
  | [] => []
  | [a] => a.data
  | a :: rest => a.data ++ ' ' :: joinWithSpaces rest

/-- `s.strip()`: drop leading and trailing Python whitespace. -/
def stripChars (l : List Char) : List Char :=
  ((l.dropWhile isPyWs).reverse.dropWhile isPyWs).reverse

/-- `message_text = " ".join(context.args).strip()`. -/
def message_text_of (args : List String) : List Char :=
  stripChars (joinWithSpaces args)

/-- One observable step of the broadcast loop: a delivered send, a send
whose exception was swallowed, or the `asyncio.sleep` throttle (duration in
milliseconds). -/
inductive SendEvent
  | sent (uid : Int) (text : List Char)
  | failed (uid : Int)
  | sleep (ms : Nat)
  deriving Repr, DecidableEq

/-- `asyncio.sleep(0.05)` — fifty milliseconds. -/
def SENDALL_SLEEP_MS : Nat := 50

/-- The loop-local state of `/sendall`: the event trace so far and the two
counters `ok` and `fail`. -/
structure LoopAcc where
  trace : List SendEvent
  ok : Nat
  fail : Nat
  deriving Repr, DecidableEq

/-- One iteration of the `/sendall` loop body: `try` the send (`ok += 1` on
success, `fail += 1` when the exception is caught), then sleep the throttle
delay unconditionally. -/
def sendall_step (outcome : Int → Bool) (text : List Char)
    (acc : LoopAcc) (uid : Int) : LoopAcc :=
  let acc' :=
    if outcome uid then
      { acc with trace := acc.trace ++ [SendEvent.sent uid text], ok := acc.ok + 1 }
    else
      { acc with trace := acc.trace ++ [SendEvent.failed uid], fail := acc.fail + 1 }
  { acc' with trace := acc'.trace ++ [SendEvent.sleep SENDALL_SLEEP_MS] }

/-- `for uid in user_ids: ...` with `ok = 0` and `fail = 0` before the
loop. -/
def sendall_loop (outcome : Int → Bool) (text : List Char)
    (uids : List Int) : LoopAcc :=
  uids.foldl (sendall_step outcome text) { trace := [], ok := 0, fail := 0 }

/-- `get_all_user_ids`: `SELECT user_id FROM users`. -/
def get_all_user_ids (db : DB) : List Int :=
  db.users.map (fun r => r.user_id)

/-- Outcome of a `/sendall` invocation: silently ignored (non-admin or no
user), the usage reply, the no-recipients reply, or the final edited report
(trace of the run plus the three reported numbers). -/
inductive SendallResult
  | ignored
  | usage
  | noUsers
  | report (trace : List SendEvent) (ok fail total : Nat)
  deriving Repr, DecidableEq

/-- `sendall_cmd`: admin guard, `context.args` truthiness guard, message
text construction, snapshot of the user ids, empty-snapshot guard, then the
throttled loop and the final report `ok / fail / len(user_ids)`.
`outcome uid` is whether `send_message(chat_id=uid, ...)` succeeds. -/
def sendall_cmd (adminIds : List Int) (caller : Option TgUser)
    (args : List String) (outcome : Int → Bool) (db : DB) : SendallResult :=
  match caller with
  | none => SendallResult.ignored
  | some u =>
    if !(is_admin adminIds u.id) then SendallResult.ignored
    else if args.isEmpty then SendallResult.usage
    else
      let message_text := message_text_of args
      let user_ids := get_all_user_ids db
      if user_ids.isEmpty then SendallResult.noUsers
      else
        let acc := sendall_loop outcome message_text user_ids
        SendallResult.report acc.trace acc.ok acc.fail user_ids.length

/-! ## Concrete fixtures used by witnesses and counterexamples -/

/-- A user with a username, for concrete runs. -/
def u0 : TgUser := { id := 7, username := some "alice", first_name := "A", last_name := none }

/-- The empty database. -/
def db0 : DB := { users := [], giveaway := [] }

/-- The empty bot state. -/
def st0 : BotState := { db := db0, file := [] }

/-- A giveaway row whose user never set a username. -/
def ghostRow : GiveawayRow := { user_id := 42, username := none, joined_at := 0 }

/-- A giveaway row with username `alice`. -/
def aliceRow : GiveawayRow := { user_id := 7, username := some "alice", joined_at := 0 }

/-! ## C1 — the gate fails closed -/

/-- C1: for a `join_giveaway` invocation, when `get_chat_member` raises, the
handler returns the state *unchanged* (in particular no `add_to_giveaway`
write happened) with exactly the message an explicit non-member status
(`left`) produces. -/
theorem gate_fails_closed (channel : String) (user : TgUser) (now : Int)
    (addFails successEditFails : Bool) (st : BotState) :
    button_handler "join_giveaway" channel user now OracleResult.raised
        addFails successEditFails st
      = (st, GateReply.msg (denial_msg channel)) ∧
    (button_handler "join_giveaway" channel user now (OracleResult.ok "left")
        addFails successEditFails st).2
      = GateReply.msg (denial_msg channel) :=
  ⟨rfl, rfl⟩

/-! ## C3 — the activity upsert is awaited, not fire-and-forget -/

/-- C3 counterexample: a storage error in the offloaded `upsert_user` makes
both `start` and `echo_touch` abort — `start`'s primary reply is never
produced, refuting fire-and-forget at a concrete input. -/
theorem activity_upsert_awaited_counterexample :
    start (some u0) 5 true db0 = Except.error StorageErr.err ∧
    echo_touch (some u0) 5 true db0 = Except.error StorageErr.err :=
  ⟨rfl, rfl⟩

/-- C3 (amended): the activity upsert IS awaited by the triggering handler
(`await loop.run_in_executor(...)`): when it raises, the error propagates
and the primary reply is not sent; when it succeeds, the reply is produced
only after the completed upsert. -/
theorem activity_upsert_awaited (u : TgUser) (now : Int) (db : DB) :
    start (some u) now true db = Except.error StorageErr.err ∧
    start (some u) now false db = Except.ok (upsert_user u now db, START_TEXT) ∧
    echo_touch (some u) now true db = Except.error StorageErr.err ∧
    echo_touch (some u) now false db = Except.ok (upsert_user u now db) :=
  ⟨rfl, rfl, rfl, rfl⟩

/-! ## C7 — the active-today threshold uses the host-local date -/

/-- A user last seen at 01:00 UTC on epoch day 12. -/
def activeUser : UserRow :=
  { user_id := 1, username := none, first_name := "B", last_name := none,
    joined_at := 0, last_seen := 12 * 86400 + 3600 }

/-- Database holding only `activeUser`. -/
def dbActive : DB := { users := [activeUser], giveaway := [] }

/-- C7 (code bug): at 11:00 UTC on epoch day 12 with the host clock at
UTC+14 (local date already day 13), the code's threshold is midnight UTC of
day 13, so a user last seen at 01:00 UTC on day 12 is not counted, while
the specified UTC-day threshold counts them; with the host at UTC the two
agree, isolating `date.today()`'s use of the local date as the defect. -/
theorem active_today_local_date_divergence :
    count_active_today (12 * 86400 + 39600) 50400 dbActive = 0 ∧
    count_active_today_utcSpec (12 * 86400 + 39600) dbActive = 1 ∧
    count_active_today (12 * 86400 + 39600) 0 dbActive
      = count_active_today_utcSpec (12 * 86400 + 39600) dbActive := by
  refine ⟨by decide, by decide, by decide⟩

/-! ## C2 — entries without a username are dropped from the display -/

/-- C2 counterexample: a single entry whose user has no username yields the
no-username notice and an empty line list — the entry is not displayed by
id, it is silently dropped from the listing. -/
theorem participants_drop_counterexample :
    participants_cmd [ghostRow] = ParticipantsReply.noUsernames ∧
    participants_lines ([ghostRow].map (fun r => r.username)) = [] :=
  ⟨rfl, rfl⟩

/-- The comprehension skips a missing username. -/
lemma participants_lines_cons_none (rest : List (Option String)) :
    participants_lines (none :: rest) = participants_lines rest := rfl

/-- The comprehension keeps a present username iff it is non-empty. -/
lemma participants_lines_cons_some (u : String) (rest : List (Option String)) :
    participants_lines (some u :: rest) =
      if u == "" then participants_lines rest
      else ("@" ++ u) :: participants_lines rest := by
  by_cases he : u = ""
  · subst he
    simp [participants_lines, List.filterMap_cons]
  · simp [participants_lines, List.filterMap_cons, he, beq_iff_eq]

/-- The comprehension over usernames equals filtering the rows by truthy
username and formatting each. -/
lemma participants_lines_eq (rows : List GiveawayRow) :
    participants_lines (rows.map (fun r => r.username)) =
      (rows.filter (fun r => usernameTruthy r.username)).map
        (fun r => "@" ++ r.username.getD "") := by
  induction rows with
  | nil => rfl
  | cons r rest ih =>
    rw [List.map_cons, List.filter_cons]
    cases hu : r.username with
    | none =>
      rw [participants_lines_cons_none, ih]
      simp [usernameTruthy, hu]
    | some u =>
      rw [participants_lines_cons_some, ih]
      by_cases he : u == "" <;> simp [usernameTruthy, hu, he]

/-- C2 (amended): whenever `/participants` shows a listing, its lines are
exactly the entries with a truthy username, formatted `@username`; entries
lacking a username contribute no line (when all entries lack one a notice
replaces the listing, and ids are never displayed). -/
theorem participants_lines_amended (rows : List GiveawayRow) (lines : List String)
    (h : participants_cmd rows = ParticipantsReply.listing lines) :
    lines = (rows.filter (fun r => usernameTruthy r.username)).map
      (fun r => "@" ++ r.username.getD "") := by
  by_cases hrows : (rows.map (fun r => r.username)).isEmpty
  · simp [participants_cmd, hrows] at h
  · by_cases hlines : (participants_lines (rows.map (fun r => r.username))).isEmpty
    · simp [participants_cmd, hrows, hlines] at h
    · simp [participants_cmd, hrows, hlines] at h
      rw [← h, participants_lines_eq]

/-- C2 amended-claim witness: a concrete table with one `alice` entry and
one username-less entry lists exactly the `@alice` line. -/
theorem participants_lines_amended_witness :
    participants_cmd [aliceRow, ghostRow] = ParticipantsReply.listing ["@alice"] ∧
    ["@alice"] = ([aliceRow, ghostRow].filter (fun r => usernameTruthy r.username)).map
      (fun r => "@" ++ r.username.getD "") :=
  ⟨rfl, participants_lines_amended [aliceRow, ghostRow] ["@alice"] rfl⟩

/-! ## C6 — the upsert is an idempotent merge that never moves joined_at -/

/-- The conflict update leaves rows of other users identical. -/
lemma map_update_of_fresh (u : TgUser) (now : Int) (l : List UserRow)
    (h : ∀ r ∈ l, r.user_id ≠ u.id) :
    l.map (fun r =>
        if r.user_id == u.id then
          { r with username := u.username, first_name := u.first_name,
                   last_name := u.last_name, last_seen := now }
        else r) = l := by
  induction l with
  | nil => rfl
  | cons a l ih =>
    have ha : (a.user_id == u.id) = false := by
      simpa [beq_iff_eq] using h a (by simp)
    simp only [List.map_cons, ha, Bool.false_eq_true, if_false]
    rw [ih (fun r hr => h r (by simp [hr]))]

/-- Rows of other users never pass the `user_id` filter. -/
lemma filter_uid_of_fresh (i : Int) (l : List UserRow)
    (h : ∀ r ∈ l, r.user_id ≠ i) :
    l.filter (fun r => r.user_id == i) = [] := by
  induction l with
  | nil => rfl
  | cons a l ih =>
    have ha : (a.user_id == i) = false := by
      simpa [beq_iff_eq] using h a (by simp)
    simp only [List.filter_cons, ha, Bool.false_eq_true, if_false]
    exact ih (fun r hr => h r (by simp [hr]))

/-- C6: for a `user_id` the table has not seen, upserting twice leaves
exactly one row for it, with `joined_at` from the first call and
`last_seen` (and the mutable fields) from the second; and for any table at
all, an upsert preserves every existing row's `user_id` and `joined_at`. -/
theorem upsert_idempotent_merge (u : TgUser) (t1 t2 : Int) (db : DB)
    (hfresh : ∀ r ∈ db.users, r.user_id ≠ u.id) :
    ((upsert_user u t2 (upsert_user u t1 db)).users.filter
        (fun r => r.user_id == u.id))
      = [{ user_id := u.id, username := u.username, first_name := u.first_name,
           last_name := u.last_name, joined_at := t1, last_seen := t2 }] ∧
    (∀ (db' : DB) (t : Int), ∀ r ∈ db'.users,
      ∃ r' ∈ (upsert_user u t db').users,
        r'.user_id = r.user_id ∧ r'.joined_at = r.joined_at) := by
  constructor
  · have hany : db.users.any (fun r => r.user_id == u.id) = false := by
      rw [List.any_eq_false]
      intro r hr
      simpa [beq_iff_eq] using hfresh r hr
    have h1 : upsert_user u t1 db =
        { db with users := db.users ++
            [{ user_id := u.id, username := u.username, first_name := u.first_name,
               last_name := u.last_name, joined_at := t1, last_seen := t1 }] } := by
      simp [upsert_user, hany]
    have hany2 : (upsert_user u t1 db).users.any (fun r => r.user_id == u.id) = true := by
      rw [h1]
      simp [List.any_append]
    rw [upsert_user, if_pos hany2, h1]
    simp only [List.map_append, List.filter_append]
    rw [map_update_of_fresh u t2 db.users hfresh, filter_uid_of_fresh u.id db.users hfresh]
    simp
  · intro db' t r hr
    by_cases h : db'.users.any (fun r => r.user_id == u.id)
    · refine ⟨if r.user_id == u.id then
          { r with username := u.username, first_name := u.first_name,
                   last_name := u.last_name, last_seen := t }
        else r, ?_, ?_⟩
      · rw [upsert_user, if_pos h]
        exact List.mem_map_of_mem _ hr
      · by_cases hru : (r.user_id == u.id) = true <;> simp [hru]
    · refine ⟨r, ?_, rfl, rfl⟩
      rw [upsert_user, if_neg h]
      exact List.mem_append_left _ hr

/-- C6 witness: upserting a fresh user at instants 10 then 20 yields the
single merged row. -/
theorem upsert_idempotent_merge_witness :
    (∀ r ∈ db0.users, r.user_id ≠ u0.id) ∧
    (((upsert_user u0 20 (upsert_user u0 10 db0)).users.filter
        (fun r => r.user_id == u0.id))
      = [{ user_id := u0.id, username := u0.username, first_name := u0.first_name,
           last_name := u0.last_name, joined_at := 10, last_seen := 20 }] ∧
     (∀ (db' : DB) (t : Int), ∀ r ∈ db'.users,
       ∃ r' ∈ (upsert_user u0 t db').users,
         r'.user_id = r.user_id ∧ r'.joined_at = r.joined_at)) :=
  ⟨fun r hr => absurd hr (by simp [db0]),
   upsert_idempotent_merge u0 10 20 db0 (fun r hr => absurd hr (by simp [db0]))⟩

/-! ## C5 — Entry Ledger uniqueness under repeated record calls -/

/-- A sequence of Entry Ledger `record` calls for one user at successive
instants, threading the giveaway table and the text mirror. -/
def record_calls (user : TgUser) (times : List Int) (db : DB) (file : List String) :
    DB × List String :=
  times.foldl (fun st t => add_to_giveaway user t st.1 st.2) (db, file)

/-- The mirror needs no further write for this user: they have no
username, an empty one, or their line is already present. -/
def mirrorSteady (u : TgUser) (file : List String) : Prop :=
  ∀ un, u.username = some un → un = "" ∨ un ∈ file

/-- Once the user's row exists and the mirror is steady for them, a
further `add_to_giveaway` is a complete no-op on both stores. -/
lemma add_to_giveaway_noop (u : TgUser) (t : Int)
    (db : DB) (file : List String)
    (hany : db.giveaway.any (fun r => r.user_id == u.id) = true)
    (hsteady : mirrorSteady u file) :
    add_to_giveaway u t db file = (db, file) := by
  cases hu : u.username with
  | none => simp [add_to_giveaway, hany, hu]
  | some un =>
    rcases hsteady un hu with he | hm
    · simp [add_to_giveaway, hany, hu, he]
    · by_cases he : un = "" <;> simp [add_to_giveaway, hany, hu, he, hm]

/-- Once the user's row exists and the mirror is steady for them, any
further sequence of `record` calls leaves both stores unchanged. -/
lemma record_calls_steady (u : TgUser) (times : List Int) :
    ∀ (db : DB) (file : List String),
      db.giveaway.any (fun r => r.user_id == u.id) = true →
      mirrorSteady u file →
      record_calls u times db file = (db, file) := by
  induction times with
  | nil => intro db file _ _; rfl
  | cons t ts ih =>
    intro db file hany hsteady
    have hstep : add_to_giveaway u t db file = (db, file) :=
      add_to_giveaway_noop u t db file hany hsteady
    show List.foldl _ ((fun (st : DB × List String) t =>
      add_to_giveaway u t st.1 st.2) (db, file) t) ts = (db, file)
    simp only [hstep]
    exact ih db file hany hsteady

/-- C5: from a table holding no row for the user, any non-empty sequence
of `record` calls — a rapid double entry included — ends with exactly one
giveaway row for the `user_id`, whether or not the user has a username;
and whenever the user does have a non-empty username not yet mirrored, the
mirror ends with exactly one line carrying it. -/
theorem giveaway_unique_entry (u : TgUser) (times : List Int)
    (db : DB) (file : List String)
    (hne : times ≠ [])
    (hdb : db.giveaway.countP (fun r => r.user_id == u.id) = 0) :
    ((record_calls u times db file).1.giveaway.countP
        (fun r => r.user_id == u.id)) = 1 ∧
    (∀ uname, u.username = some uname → uname ≠ "" → file.count uname = 0 →
      ((record_calls u times db file).2.count uname) = 1) := by
  cases times with
  | nil => exact absurd rfl hne
  | cons t ts =>
    have hany : db.giveaway.any (fun r => r.user_id == u.id) = false := by
      rw [List.any_eq_false]
      intro r hr
      have := List.countP_eq_zero.mp hdb r hr
      simpa using this
    have hdb1 : (add_to_giveaway u t db file).1 =
        { db with giveaway := db.giveaway ++
            [{ user_id := u.id, username := u.username, joined_at := t }] } := by
      simp [add_to_giveaway, hany]
    have hany1 : (add_to_giveaway u t db file).1.giveaway.any
        (fun r => r.user_id == u.id) = true := by
      rw [hdb1]
      simp [List.any_append]
    have hsteady1 : mirrorSteady u (add_to_giveaway u t db file).2 := by
      intro un hun
      by_cases he : un = ""
      · exact Or.inl he
      · right
        by_cases hm : un ∈ file
        · simp [add_to_giveaway, hun, he, hm]
        · simp [add_to_giveaway, hun, he, hm]
    have hrun : record_calls u (t :: ts) db file =
        ((add_to_giveaway u t db file).1, (add_to_giveaway u t db file).2) := by
      show List.foldl _ ((fun (st : DB × List String) t =>
        add_to_giveaway u t st.1 st.2) (db, file) t) ts = _
      exact record_calls_steady u ts _ _ hany1 hsteady1
    rw [hrun]
    constructor
    · rw [hdb1]
      simp [List.countP_append, hdb]
    · intro uname hu hune hfile
      have hm : uname ∉ file := List.count_eq_zero.mp hfile
      have hfile1 : (add_to_giveaway u t db file).2 = file ++ [uname] := by
        simp [add_to_giveaway, hu, hune, hm]
      rw [hfile1]
      simp [List.count_append, hfile]

/-- C5 witness: the `alice` user double-taps (calls at instants 1 and 2)
starting from empty stores: one row, one `alice` line. -/
theorem giveaway_unique_entry_witness :
    (([1, 2] : List Int) ≠ [] ∧
     db0.giveaway.countP (fun r => r.user_id == u0.id) = 0) ∧
    (((record_calls u0 [1, 2] db0 []).1.giveaway.countP
        (fun r => r.user_id == u0.id)) = 1 ∧
     (∀ uname, u0.username = some uname → uname ≠ "" →
       ([] : List String).count uname = 0 →
       ((record_calls u0 [1, 2] db0 []).2.count uname) = 1)) :=
  ⟨⟨by decide, rfl⟩,
   giveaway_unique_entry u0 [1, 2] db0 [] (by decide) rfl⟩

/-! ## The broadcast loop: trace and counter characterisation -/

/-- The trace element of one recipient's attempt. -/
def attemptEvent (outcome : Int → Bool) (text : List Char) (uid : Int) : SendEvent :=
  if outcome uid then SendEvent.sent uid text else SendEvent.failed uid

/-- Folding the loop body over the snapshot appends, per recipient in
order, its attempt event and one sleep of the constant, and adds the
number of successes to `ok` and the number of failures to `fail`. -/
lemma sendall_foldl_spec (outcome : Int → Bool) (text : List Char) (uids : List Int) :
    ∀ acc : LoopAcc,
      uids.foldl (sendall_step outcome text) acc =
        { trace := acc.trace ++ uids.flatMap (fun uid =>
            [attemptEvent outcome text uid, SendEvent.sleep SENDALL_SLEEP_MS]),
          ok := acc.ok + (uids.filter (fun uid => outcome uid)).length,
          fail := acc.fail + (uids.filter (fun uid => !(outcome uid))).length } := by
  induction uids with
  | nil => intro acc; simp
  | cons uid rest ih =>
    intro acc
    rw [List.foldl_cons, ih]
    by_cases h : outcome uid = true <;>
      simp [sendall_step, h, attemptEvent, List.append_assoc] <;> omega

/-- Each element goes to exactly one side of a predicate split. -/
lemma length_filter_split (p : Int → Bool) (l : List Int) :
    (l.filter p).length + (l.filter (fun a => !(p a))).length = l.length := by
  induction l with
  | nil => rfl
  | cons a l ih =>
    by_cases h : p a = true <;> simp [List.filter_cons, h] <;> omega

/-! ## C4 — broadcast conservation -/

/-- C4: whenever `/sendall` produces a final report, each snapshot
recipient incremented exactly one counter, so `ok + fail` equals the
reported total, which is the snapshot size, which equals `count_total()`
on the database the snapshot was taken from. -/
theorem sendall_conservation (adminIds : List Int) (caller : Option TgUser)
    (args : List String) (outcome : Int → Bool) (db : DB)
    (tr : List SendEvent) (ok fail total : Nat)
    (h : sendall_cmd adminIds caller args outcome db
      = SendallResult.report tr ok fail total) :
    ok + fail = total ∧ total = count_total_users db := by
  cases caller with
  | none => exact absurd h (by simp [sendall_cmd])
  | some u =>
    by_cases ha : is_admin adminIds u.id
    · by_cases hargs : args.isEmpty
      · simp [sendall_cmd, ha, hargs] at h
      · by_cases hids : (get_all_user_ids db).isEmpty
        · simp [sendall_cmd, ha, hargs, hids] at h
        · simp only [sendall_cmd, ha, hargs, hids, Bool.not_true, Bool.false_eq_true,
            if_false, if_pos, SendallResult.report.injEq] at h
          obtain ⟨-, hok, hfail, htot⟩ := h
          rw [← hok, ← hfail, ← htot]
          rw [sendall_loop, sendall_foldl_spec]
          constructor
          · simpa using length_filter_split (fun uid => outcome uid) (get_all_user_ids db)
          · simp [get_all_user_ids, count_total_users]
    · simp [sendall_cmd, ha] at h

/-! ## Concrete broadcast fixtures -/

/-- The operator on the allow-list. -/
def adminUser : TgUser := { id := 99, username := none, first_name := "Op", last_name := none }

/-- Directory row for recipient 1. -/
def rowU1 : UserRow :=
  { user_id := 1, username := none, first_name := "U", last_name := none,
    joined_at := 0, last_seen := 0 }

/-- Directory row for recipient 2. -/
def rowU2 : UserRow :=
  { user_id := 2, username := none, first_name := "V", last_name := none,
    joined_at := 0, last_seen := 0 }

/-- A directory of two recipients. -/
def dbTwo : DB := { users := [rowU1, rowU2], giveaway := [] }

/-- Send succeeds exactly for recipient 1. -/
def outcome1 : Int → Bool := fun uid => uid == 1

/-- The trace of broadcasting `hi` to `dbTwo` under `outcome1`. -/
def trHi : List SendEvent :=
  [SendEvent.sent 1 ['h', 'i'], SendEvent.sleep 50,
   SendEvent.failed 2, SendEvent.sleep 50]

/-- C4 witness: a concrete run over two recipients with one failure
reports `1 + 1 = 2 = count_total()`. -/
theorem sendall_conservation_witness :
    sendall_cmd [99] (some adminUser) ["hi"] outcome1 dbTwo
      = SendallResult.report trHi 1 1 2 ∧
    (1 + 1 = 2 ∧ 2 = count_total_users dbTwo) :=
  ⟨by decide,
   sendall_conservation [99] (some adminUser) ["hi"] outcome1 dbTwo trHi 1 1 2 (by decide)⟩

/-! ## C8 — the throttle runs after every recipient -/

/-- C8: whenever `/sendall` produces a report, its trace is, recipient by
recipient in snapshot order, the attempt event (delivered or swallowed —
the throttle does not depend on which) immediately followed by one sleep
of the configured constant, which is 50 ms; in particular one sleep
separates any two consecutive attempts. -/
theorem sendall_throttle_trace (adminIds : List Int) (caller : Option TgUser)
    (args : List String) (outcome : Int → Bool) (db : DB)
    (tr : List SendEvent) (ok fail total : Nat)
    (h : sendall_cmd adminIds caller args outcome db
      = SendallResult.report tr ok fail total) :
    tr = (get_all_user_ids db).flatMap (fun uid =>
      [attemptEvent outcome (message_text_of args) uid,
       SendEvent.sleep SENDALL_SLEEP_MS]) ∧
    SENDALL_SLEEP_MS = 50 := by
  refine ⟨?_, rfl⟩
  cases caller with
  | none => exact absurd h (by simp [sendall_cmd])
  | some u =>
    by_cases ha : is_admin adminIds u.id
    · by_cases hargs : args.isEmpty
      · simp [sendall_cmd, ha, hargs] at h
      · by_cases hids : (get_all_user_ids db).isEmpty
        · simp [sendall_cmd, ha, hargs, hids] at h
        · simp only [sendall_cmd, ha, hargs, hids, Bool.not_true, Bool.false_eq_true,
            if_false, if_pos, SendallResult.report.injEq] at h
          obtain ⟨htr, -, -, -⟩ := h
          rw [← htr, sendall_loop, sendall_foldl_spec]
          simp
    · simp [sendall_cmd, ha] at h

/-- The trace of broadcasting `yo` to `dbTwo` under `outcome1`. -/
def trYo : List SendEvent :=
  [SendEvent.sent 1 ['y', 'o'], SendEvent.sleep 50,
   SendEvent.failed 2, SendEvent.sleep 50]

/-- C8 witness: the concrete two-recipient run's trace is exactly
attempt-sleep, attempt-sleep even though the second send failed. -/
theorem sendall_throttle_trace_witness :
    sendall_cmd [99] (some adminUser) ["yo"] outcome1 dbTwo
      = SendallResult.report trYo 1 1 2 ∧
    (trYo = (get_all_user_ids dbTwo).flatMap (fun uid =>
      [attemptEvent outcome1 (message_text_of ["yo"]) uid,
       SendEvent.sleep SENDALL_SLEEP_MS]) ∧
     SENDALL_SLEEP_MS = 50) :=
  ⟨by decide,
   sendall_throttle_trace [99] (some adminUser) ["yo"] outcome1 dbTwo trYo 1 1 2 (by decide)⟩

/-! ## C10 — the broadcast text is the space-joined argument list -/

/-- Two adjacent characters are never both whitespace. -/
def noAdjWs (a b : Char) : Prop := isPyWs a = false ∨ isPyWs b = false

/-- A list of non-whitespace characters has no adjacent whitespace pair. -/
lemma chain_of_nonws (l : List Char) (h : ∀ c ∈ l, isPyWs c = false) :
    List.Chain' noAdjWs l := by
  induction l with
  | nil => exact List.chain'_nil
  | cons a t ih =>
    cases t with
    | nil => exact List.chain'_singleton a
    | cons b t2 =>
      rw [List.chain'_cons]
      exact ⟨Or.inl (h a (by simp)), ih (fun c hc => h c (by simp [hc]))⟩

/-- Every character of the joined text comes from an argument or is the
single-space separator. -/
lemma joinWithSpaces_mem (args : List String) :
    ∀ c ∈ joinWithSpaces args, (∃ a ∈ args, c ∈ a.data) ∨ c = ' ' := by
  induction args with
  | nil =>
    intro c hc
    simp [joinWithSpaces] at hc
  | cons a rest ih =>
    cases rest with
    | nil =>
      intro c hc
      exact Or.inl ⟨a, by simp, by simpa [joinWithSpaces] using hc⟩
    | cons b rest2 =>
      intro c hc
      rw [show joinWithSpaces (a :: b :: rest2)
          = a.data ++ ' ' :: joinWithSpaces (b :: rest2) from rfl] at hc
      rcases List.mem_append.mp hc with h | h
      · exact Or.inl ⟨a, by simp, h⟩
      · rcases List.mem_cons.mp h with h | h
        · exact Or.inr h
        · rcases ih c h with ⟨a', ha', hc'⟩ | h'
          · exact Or.inl ⟨a', by simp [ha'], hc'⟩
          · exact Or.inr h'

/-- For non-empty, whitespace-free arguments, the joined text is non-empty,
starts and ends with non-whitespace, and has no adjacent whitespace pair. -/
lemma joinWithSpaces_wf (args : List String) (hne : args ≠ [])
    (htok : ∀ a ∈ args, a.data ≠ [] ∧ ∀ c ∈ a.data, isPyWs c = false) :
    joinWithSpaces args ≠ [] ∧
    (∀ c ∈ (joinWithSpaces args).head?, isPyWs c = false) ∧
    (∀ c ∈ (joinWithSpaces args).getLast?, isPyWs c = false) ∧
    List.Chain' noAdjWs (joinWithSpaces args) := by
  induction args with
  | nil => exact absurd rfl hne
  | cons a rest ih =>
    obtain ⟨had, hac⟩ := htok a (by simp)
    cases rest with
    | nil =>
      have hj : joinWithSpaces [a] = a.data := rfl
      rw [hj]
      exact ⟨had,
        fun c hc => hac c (List.mem_of_mem_head? hc),
        fun c hc => hac c (List.mem_of_mem_getLast? hc),
        chain_of_nonws a.data hac⟩
    | cons b rest2 =>
      obtain ⟨hj', hh', hl', hch'⟩ :=
        ih (by simp) (fun x hx => htok x (by simp [hx]))
      have hj : joinWithSpaces (a :: b :: rest2)
          = a.data ++ ' ' :: joinWithSpaces (b :: rest2) := rfl
      rw [hj]
      refine ⟨by simp, ?_, ?_, ?_⟩
      · intro c hc
        rw [List.head?_append_of_ne_nil a.data had] at hc
        exact hac c (List.mem_of_mem_head? hc)
      · intro c hc
        rw [List.getLast?_append_of_ne_nil a.data (by simp)] at hc
        cases hcase : joinWithSpaces (b :: rest2) with
        | nil => exact absurd hcase hj'
        | cons d j2 =>
          rw [hcase, List.getLast?_cons_cons] at hc
          rw [hcase] at hl'
          exact hl' c hc
      · rw [List.chain'_append]
        refine ⟨chain_of_nonws a.data hac, ?_, ?_⟩
        · cases hcase : joinWithSpaces (b :: rest2) with
          | nil => exact absurd hcase hj'
          | cons d j2 =>
            rw [List.chain'_cons]
            rw [hcase] at hh' hch'
            exact ⟨Or.inr (hh' d rfl), hch'⟩
        · intro x hx y _
          exact Or.inl (hac x (List.mem_of_mem_getLast? hx))

/-- When the joined text starts and ends with non-whitespace, `strip` is
the identity. -/
lemma stripChars_eq_self (l : List Char)
    (hh : ∀ c ∈ l.head?, isPyWs c = false)
    (hl : ∀ c ∈ l.getLast?, isPyWs c = false) :
    stripChars l = l := by
  have h1 : List.dropWhile isPyWs l = l := by
    cases l with
    | nil => rfl
    | cons a t => simp [List.dropWhile_cons, hh a rfl]
  rw [stripChars, h1]
  have h2 : List.dropWhile isPyWs l.reverse = l.reverse := by
    cases hr : l.reverse with
    | nil => rfl
    | cons b tb =>
      have hb : b ∈ l.getLast? := by
        rw [← List.head?_reverse, hr]; rfl
      simp [List.dropWhile_cons, hl b hb]
  rw [h2, List.reverse_reverse]

/-- C10: every text placed in a `sent` event of a `/sendall` report equals
`" ".join(context.args).strip()`; and when the arguments are the gateway's
whitespace-split tokens (non-empty, whitespace-free), that text is plainly
the arguments joined by single spaces, every whitespace character in it is
the single-space separator (so line breaks are gone), and no two adjacent
characters are whitespace (runs are collapsed). -/
theorem sendall_text_collapsed (adminIds : List Int) (caller : Option TgUser)
    (args : List String) (outcome : Int → Bool) (db : DB)
    (tr : List SendEvent) (ok fail total : Nat)
    (h : sendall_cmd adminIds caller args outcome db
      = SendallResult.report tr ok fail total)
    (htok : ∀ a ∈ args, a.data ≠ [] ∧ ∀ c ∈ a.data, isPyWs c = false) :
    (∀ uid txt, SendEvent.sent uid txt ∈ tr → txt = message_text_of args) ∧
    message_text_of args = joinWithSpaces args ∧
    (∀ c ∈ message_text_of args, isPyWs c = true → c = ' ') ∧
    List.Chain' noAdjWs (message_text_of args) := by
  have hargsne : ¬args.isEmpty := by
    cases caller with
    | none => exact absurd h (by simp [sendall_cmd])
    | some u =>
      by_cases ha : is_admin adminIds u.id
      · by_cases hargs : args.isEmpty
        · exact absurd h (by simp [sendall_cmd, ha, hargs])
        · exact hargs
      · exact absurd h (by simp [sendall_cmd, ha])
  have hne : args ≠ [] := by
    intro hcon
    exact hargsne (by simp [hcon])
  obtain ⟨hj', hh', hl', hch'⟩ := joinWithSpaces_wf args hne htok
  have hstrip : message_text_of args = joinWithSpaces args :=
    stripChars_eq_self (joinWithSpaces args) hh' hl'
  refine ⟨?_, hstrip, ?_, ?_⟩
  · intro uid txt hmem
    cases caller with
    | none => exact absurd h (by simp [sendall_cmd])
    | some u =>
      by_cases ha : is_admin adminIds u.id
      · by_cases hids : (get_all_user_ids db).isEmpty
        · simp [sendall_cmd, ha, hargsne, hids] at h
        · simp only [sendall_cmd, ha, hargsne, hids, Bool.not_true,
            Bool.false_eq_true, if_false, if_pos, SendallResult.report.injEq] at h
          obtain ⟨htr, -, -, -⟩ := h
          rw [← htr, sendall_loop, sendall_foldl_spec] at hmem
          simp only [List.nil_append, List.mem_flatMap] at hmem
          obtain ⟨uid', -, hev⟩ := hmem
          rcases List.mem_cons.mp hev with hev1 | hev2
          · rw [attemptEvent] at hev1
            by_cases ho : outcome uid' = true
            · rw [if_pos ho] at hev1
              cases hev1
              rfl
            · rw [if_neg ho] at hev1
              cases hev1
          · rcases List.mem_cons.mp hev2 with hev3 | hev4
            · cases hev3
            · simp at hev4
      · simp [sendall_cmd, ha] at h
  · intro c hc hws
    rw [hstrip] at hc
    rcases joinWithSpaces_mem args c hc with ⟨a, ha, hca⟩ | hsp
    · exact absurd hws (by simp [(htok a ha).2 c hca])
    · exact hsp
  · rw [hstrip]
    exact hch'

/-- The trace of broadcasting `hi go` to `dbTwo` under `outcome1`. -/
def trHiGo : List SendEvent :=
  [SendEvent.sent 1 ['h', 'i', ' ', 'g', 'o'], SendEvent.sleep 50,
   SendEvent.failed 2, SendEvent.sleep 50]

/-- C10 witness: a two-argument broadcast delivers exactly the single text
`hi go` — arguments joined by one space. -/
theorem sendall_text_collapsed_witness :
    (sendall_cmd [99] (some adminUser) ["hi", "go"] outcome1 dbTwo
        = SendallResult.report trHiGo 1 1 2 ∧
     ∀ a ∈ (["hi", "go"] : List String), a.data ≠ [] ∧ ∀ c ∈ a.data, isPyWs c = false) ∧
    ((∀ uid txt, SendEvent.sent uid txt ∈ trHiGo → txt = message_text_of ["hi", "go"]) ∧
     message_text_of ["hi", "go"] = joinWithSpaces ["hi", "go"] ∧
     (∀ c ∈ message_text_of ["hi", "go"], isPyWs c = true → c = ' ') ∧
     List.Chain' noAdjWs (message_text_of ["hi", "go"])) :=
  ⟨⟨by decide, by decide⟩,
   sendall_text_collapsed [99] (some adminUser) ["hi", "go"] outcome1 dbTwo
     trHiGo 1 1 2 (by decide) (by decide)⟩

/-! ## C9 — any grant-path failure degrades to the denial message -/

/-- C9: after the membership check succeeds, an exception anywhere on the
grant path — the ledger write through the executor, or the success
acknowledgment edit — lands in the gate's single `except` handler, so the
user receives exactly the join-the-channel denial text of a non-member. -/
theorem grant_path_failure_denial (channel : String) (user : TgUser) (now : Int)
    (status : String) (addFails successEditFails : Bool) (st : BotState)
    (hgrant : statusGrants status = true)
    (hfail : addFails = true ∨ successEditFails = true) :
    (button_handler "join_giveaway" channel user now (OracleResult.ok status)
        addFails successEditFails st).2
      = GateReply.msg (denial_msg channel) := by
  rcases hfail with hf | hf
  · subst hf
    simp [button_handler, hgrant]
  · subst hf
    by_cases haf : addFails = true <;> simp [button_handler, hgrant, haf]

/-- C9 witness: a member whose ledger write raises, and a member whose
success edit raises, both see the denial message. -/
theorem grant_path_failure_denial_witness :
    (statusGrants "member" = true ∧ (true = true ∨ false = true)) ∧
    (button_handler "join_giveaway" "@igro_store_tm" u0 0 (OracleResult.ok "member")
        true false st0).2
      = GateReply.msg (denial_msg "@igro_store_tm") :=
  ⟨⟨by decide, Or.inl rfl⟩,
   grant_path_failure_denial "@igro_store_tm" u0 0 "member" true false st0
     (by decide) (Or.inl rfl)⟩

end IgroBot
